import Mathlib

/-!
Verification of the NLTK Twitter client (`nltk/twitter/twitterclient.py`)
against its natural-language specification.

The source module is shallowly embedded below.  Network traffic is
abstracted by an oracle script: each call the code makes to the remote
`search` endpoint consumes one `ApiResult` from a list, which is either a
page of tweets, a rate-limit error (`TwythonRateLimitError`), or a generic
transport error (`TwythonError`).  Printing, sleeping, file opening and
closing are recorded in ghost fields (`diags`, `sleeps`, `fins`,
`closedFiles`, ...) so that theorems can speak about them.

The handler classes `TweetHandlerI` / `BasicTweetHandler` live in
`nltk/twitter/api.py`, which is not part of the analysed sources; the few
facts needed about them (the default continuation predicate and the
initial flag values) are modelled from the spec and marked as such.
-/

namespace TwitterClient

/-- The kind of registered handler: `BasicTweetHandler`, `TweetViewer`,
or `TweetWriter`. -/
inductive HKind where
  | basic
  | viewer
  | writer
  deriving DecidableEq, Repr

/-- A tweet as far as this module inspects it: a numeric `id`, a
`created_at` timestamp (abstracted to an integer), and whether the
payload has a `text` field. -/
structure Tweet where
  id : Int
  date : Int
  hasText : Bool
  deriving DecidableEq, Repr

instance : Inhabited Tweet := ⟨⟨0, 0, true⟩⟩

/-- The state of a registered handler.  Fields up to `stream` are the
attributes the Python handlers carry; `outputOpen`, `curFile`,
`closedFiles`, `fins` and `diags` are ghost fields recording the file
system and console effects of `TweetWriter`. -/
structure Handler where
  kind : HKind
  counter : Nat
  limit : Nat
  rpt : Bool               -- the `repeat` flag
  doStop : Bool            -- `do_stop`
  startingup : Bool
  maxId : Option Int       -- `max_id`, `None` on construction
  dateLimit : Option Int   -- `date_limit`
  stream : Bool            -- `stream` mode flag of `TweetWriter`
  outputOpen : Bool        -- ghost: an output target is currently open
  curFile : List Tweet     -- ghost: records written to the open target
  closedFiles : List (List Tweet)  -- ghost: contents of closed targets
  fins : Nat               -- ghost: number of `on_finish()` calls
  diags : Nat              -- ghost: number of date-limit diagnostics
  deriving DecidableEq, Repr

/-- Modelled from the spec: the default continuation predicate of the
handler protocol (`TweetHandlerI.do_continue` / `BasicTweetHandler`,
defined in `nltk/twitter/api.py` which is not among the sources):
"true iff engine should keep pulling; default policy: false once
`counter >= limit`", i.e. it returns `counter < limit`. -/
def defaultDoContinue (h : Handler) : Bool :=
  h.counter < h.limit

/-- Whether a tweet's date crosses the configured boundary, from
`TweetWriter.handle`: `(tweet_date > self.date_limit and self.stream ==
True) or (tweet_date < self.date_limit and self.stream == False)`. -/
def crossesLimit (h : Handler) (t : Tweet) : Bool :=
  match h.dateLimit with
  | none => false
  | some d => (decide (d < t.date) && h.stream) || (decide (t.date < d) && !h.stream)

/-- `TweetWriter.handle`: open a fresh target when `startingup`, write
the record as one JSON line, then apply the date-limit check; on a
boundary crossing print a diagnostic, set `do_stop` and return early,
otherwise clear `startingup`. -/
def writerHandle (h : Handler) (t : Tweet) : Handler :=
  let h1 := if h.startingup then { h with outputOpen := true, curFile := [] } else h
  let h2 := { h1 with curFile := h1.curFile ++ [t] }
  if crossesLimit h2 t then
    { h2 with doStop := true, diags := h2.diags + 1 }
  else
    { h2 with startingup := false }

/-- `handle` dispatched on the handler kind.  `BasicTweetHandler` has no
handle action; `TweetViewer.handle` prints the text and increments the
counter; `TweetWriter.handle` is `writerHandle`. -/
def handleTweet (h : Handler) (t : Tweet) : Handler :=
  match h.kind with
  | .basic => h
  | .viewer => { h with counter := h.counter + 1 }
  | .writer => writerHandle h t

/-- `on_finish`: print the written-count summary; `TweetWriter`
additionally closes the output target when one is open. -/
def onFinishH (h : Handler) : Handler :=
  match h.kind with
  | .writer =>
    let h1 := { h with fins := h.fins + 1 }
    if h1.outputOpen then
      { h1 with closedFiles := h1.closedFiles ++ [h1.curFile], outputOpen := false }
    else h1
  | _ => { h with fins := h.fins + 1 }

/-- `TweetWriter._restart_file`: call `on_finish`, pick a new
timestamped file name (ghost), mark `startingup`, reset the counter. -/
def restartFile (h : Handler) : Handler :=
  let h1 := onFinishH h
  { h1 with startingup := true, counter := 0 }

/-- `do_continue` dispatched on the handler kind, returning the
(possibly rotated) handler together with the boolean answer.
`TweetWriter.do_continue` delegates to the protocol default when
`repeat` is off; otherwise it stops on `do_stop`, rotates when
`counter == limit`, and answers true. -/
def doContinue (h : Handler) : Handler × Bool :=
  match h.kind with
  | .writer =>
    if h.rpt = false then (h, defaultDoContinue h)
    else if h.doStop then (h, false)
    else if h.counter = h.limit then (restartFile h, true)
    else (h, true)
  | _ => (h, defaultDoContinue h)

/-- One response of the remote `search` endpoint: a page of statuses, a
rate-limit error, or a generic transport error. -/
inductive ApiResult where
  | page (tweets : List Tweet)
  | rateLimit
  | transport
  deriving DecidableEq, Repr

/-- State threaded through one run of the `search_tweets` generator: the
registered handler plus ghost trace fields (`yields`: the records the
generator has yielded so far, `terrs`: transport errors encountered in
the pagination loop, `sleeps`: 15-minute rate-limit waits). -/
structure GenSt where
  h : Handler
  yields : List Tweet
  terrs : Nat
  sleeps : Nat
  deriving DecidableEq, Repr

/-- How a fully driven run of the `search_tweets` generator ends. -/
inductive Outcome where
  | finished         -- the generator returned (StopIteration)
  | raisedInit       -- the unguarded initial request raised
  | raisedTransport  -- the pagination loop re-raised a `TwythonError`
  | nameError        -- fall-through read the unbound `results` variable
  | outOfScript      -- model artifact: the oracle script ran out
  deriving DecidableEq, Repr

/-- The new cursor computed from a page:
`results['statuses'][count - 1]['id'] - 1` (last id minus one). -/
def pageCursor (ids : List Tweet) : Int :=
  (ids.getLastD default).id - 1

/-- The per-page yield loop shared by the initial block and the
pagination loop:

```
for result in results['statuses']:
    yield result
    self.handler.counter += 1
    if self.handler.do_continue() == False:
        return
```

Between a `yield` and the following `counter += 1` the consumer of the
generator runs; in `_search_tweets` that consumer calls
`self.handler.handle(tweet)`, which is `handleTweet` here (a no-op for
`BasicTweetHandler`, matching a plain consumer).  Returns the state and
whether the generator survived the page (`false` = early `return`). -/
def yieldPage : List Tweet → GenSt → GenSt × Bool
  | [], st => (st, true)
  | t :: rest, st =>
    let st1 : GenSt := { st with yields := st.yields ++ [t] }
    let st2 : GenSt := { st1 with h := handleTweet st1.h t }
    let st3 : GenSt := { st2 with h := { st2.h with counter := st2.h.counter + 1 } }
    let hc := doContinue st3.h
    let st4 : GenSt := { st3 with h := hc.1 }
    if hc.2 then yieldPage rest st4 else (st4, false)

/-- The block of the pagination loop that runs after the `try`: bail out
on an empty page, otherwise advance the cursor, store it on the handler
(`self.handler.max_id = max_id`), and yield every status.  Returns
`none` when the generator returns (empty page or continuation false),
`some newCursor` when the loop goes round again. -/
def afterFetch (ids : List Tweet) (st : GenSt) : GenSt × Option Int :=
  match ids with
  | [] => (st, none)
  | _ :: _ =>
    let m := pageCursor ids
    let st1 : GenSt := { st with h := { st.h with maxId := some m } }
    match yieldPage ids st1 with
    | (st2, true) => (st2, some m)
    | (st2, false) => (st2, none)

/-- The pagination loop of `Query.search_tweets` (`while count_from_query
< limit`).  `results` is the local Python variable of that name: `none`
while it is still unbound.  A rate-limit error sleeps and retries the
same request; a transport error is re-raised once
`retries_after_twython_exception == retries` and otherwise falls through
to the result-processing block with the stale `results`. -/
def pagLoop (qlimit retriesAfter : Nat) :
    List ApiResult → Nat → Nat → Option (List Tweet) → Int → GenSt → GenSt × Outcome
  | [], cfq, _, _, _, st =>
    if qlimit ≤ cfq then (st, .finished) else (st, .outOfScript)
  | .rateLimit :: rest, cfq, retries, results, maxId, st =>
    if qlimit ≤ cfq then (st, .finished)
    else
      pagLoop qlimit retriesAfter rest cfq retries results maxId
        { st with sleeps := st.sleeps + 1 }
  | .transport :: rest, cfq, retries, results, _, st =>
    if qlimit ≤ cfq then (st, .finished)
    else
      let st1 : GenSt := { st with terrs := st.terrs + 1 }
      if retriesAfter = retries then (st1, .raisedTransport)
      else
        match results with
        | none => (st1, .nameError)
        | some ids =>
          match afterFetch ids st1 with
          | (st2, none) => (st2, .finished)
          | (st2, some m) =>
            pagLoop qlimit retriesAfter rest (cfq + ids.length) (retries + 1)
              (some ids) m st2
  | .page ids :: rest, cfq, retries, _, _, st =>
    if qlimit ≤ cfq then (st, .finished)
    else
      match afterFetch ids st with
      | (st2, none) => (st2, .finished)
      | (st2, some m) =>
        pagLoop qlimit retriesAfter rest (cfq + ids.length) retries (some ids) m st2

/-- The initial block of `Query.search_tweets`, run when `max_id` is
falsy: one unguarded request, early return on an empty page, cursor
computed into the *local* `max_id` only, then the yield loop and the
pagination loop. -/
def initRun (qlimit retriesAfter : Nat) (script : List ApiResult) (st : GenSt) :
    GenSt × Outcome :=
  match script with
  | [] => (st, .outOfScript)
  | .rateLimit :: _ => (st, .raisedInit)
  | .transport :: _ => (st, .raisedInit)
  | .page [] :: _ => (st, .finished)
  | .page (t :: ids) :: rest =>
    let m := pageCursor (t :: ids)
    match yieldPage (t :: ids) st with
    | (st1, true) =>
      pagLoop qlimit retriesAfter rest (t :: ids).length 0 (some (t :: ids)) m st1
    | (st1, false) => (st1, .finished)

/-- `Query.search_tweets(keywords, limit, lang, max_id,
retries_after_twython_exception)`, driven to completion.  `if not
max_id:` takes the initial block both for `None` and for the falsy
cursor `0`. -/
def searchRun (qlimit retriesAfter : Nat) (maxId0 : Option Int)
    (script : List ApiResult) (st : GenSt) : GenSt × Outcome :=
  match maxId0 with
  | none => initRun qlimit retriesAfter script st
  | some m =>
    if m = 0 then initRun qlimit retriesAfter script st
    else pagLoop qlimit retriesAfter script 0 0 none m st

/-- How `Query._search_tweets` ends. -/
inductive DispOutcome where
  | normal              -- the `while True` loop broke and `on_finish` ran
  | aborted (o : Outcome)  -- an exception escaped the generator
  deriving DecidableEq, Repr

/-- `Query._search_tweets`: repeatedly build a generator — passing
`self.handler.max_id` as the cursor when the handler is a `TweetWriter`
and `None` otherwise — drive it feeding every record to
`handler.handle` (already folded into `yieldPage`), and loop again only
while `self.handler.do_continue() and self.handler.repeat`; finally call
`on_finish` exactly at the break.  Each generator run consumes one entry
of the outer script list.  The last component counts the `on_finish`
calls made by `_search_tweets` itself (the one after the loop; the
rotation-triggered ones are inside `doContinue` and counted by the
handler's `fins` field). -/
def dispatchLoop (qlimit : Nat) : List (List ApiResult) → GenSt → GenSt × DispOutcome × Nat
  | [], st => (st, .aborted .outOfScript, 0)
  | script :: rest, st =>
    let maxId := if st.h.kind = .writer then st.h.maxId else none
    match searchRun qlimit 0 maxId script st with
    | (st1, .finished) =>
      let hc := doContinue st1.h
      let st2 : GenSt := { st1 with h := hc.1 }
      if hc.2 && st2.h.rpt then dispatchLoop qlimit rest st2
      else ({ st2 with h := onFinishH st2.h }, .normal, 1)
    | (st1, o) => (st1, .aborted o, 0)

/-- The streaming engine: each inbound item triggers
`Streamer.on_success`.  While `self.do_continue` holds, an item with a
`text` field gets `counter += 1`, `handle`, and a fresh reading of the
continuation predicate; an item without text is ignored.  Once the flag
is false the next callback disconnects and calls `on_finish` (the last
component counts these engine-level `on_finish` calls). -/
def streamRun : List Tweet → Handler → Bool → Handler × Bool × Nat
  | [], h, flag => (h, flag, 0)
  | t :: rest, h, flag =>
    if flag then
      if t.hasText then
        let h1 : Handler := { h with counter := h.counter + 1 }
        let h2 := handleTweet h1 t
        let hc := doContinue h2
        streamRun rest hc.1 hc.2
      else streamRun rest h flag
    else (onFinishH h, flag, 1)

/-- Result of entering `Streamer.filter`'s loop body once. -/
inductive FilterRes where
  | notEntered   -- `self.do_continue` was already false
  | valueError   -- the `ValueError` for empty track and follow
  | connected    -- `self.statuses.filter(...)` was reached
  deriving DecidableEq, Repr

/-- `Streamer.filter(track, follow, lang)`: inside `while
self.do_continue`, raise `ValueError` when both `track` and `follow`
are empty, otherwise call the network endpoint.  The second component
counts network calls made before returning or raising. -/
def filterCall (doCont : Bool) (track follow : String) : FilterRes × Nat :=
  if doCont then
    if track = "" ∧ follow = "" then (.valueError, 0)
    else (.connected, 1)
  else (.notEntered, 0)

/-- A freshly constructed `TweetWriter(limit, date_limit, stream, ...,
repeat, ...)`.  The flags set by `TweetWriter.__init__` itself
(`max_id = None`, no open output) come from the source; `counter = 0`,
`do_stop = False` and `startingup = True` are the protocol fields.
Modelled from the spec: those protocol fields are set by
`TweetHandlerI.__init__` in the absent `nltk/twitter/api.py`; the spec's
data model lists `startingup` as "no output target opened yet", the
counter at zero and `do_stop` unset on creation. -/
def freshWriter (limit : Nat) (dateLimit : Option Int) (stream rpt : Bool) : Handler :=
  { kind := .writer, counter := 0, limit := limit, rpt := rpt, doStop := false,
    startingup := true, maxId := none, dateLimit := dateLimit, stream := stream,
    outputOpen := false, curFile := [], closedFiles := [], fins := 0, diags := 0 }

/-- A freshly constructed `TweetViewer(limit, date_limit)`.  Modelled
from the spec for the protocol fields, as in `freshWriter`. -/
def freshViewer (limit : Nat) : Handler :=
  { kind := .viewer, counter := 0, limit := limit, rpt := false, doStop := false,
    startingup := true, maxId := none, dateLimit := none, stream := true,
    outputOpen := false, curFile := [], closedFiles := [], fins := 0, diags := 0 }

/-- A `GenSt` wrapping a handler with an empty trace. -/
def genSt (h : Handler) : GenSt :=
  { h := h, yields := [], terrs := 0, sleeps := 0 }

/-- A tweet with the given id and date whose payload has a text field
(used to instantiate theorems at concrete inputs). -/
def mkTweet (i d : Int) : Tweet :=
  { id := i, date := d, hasText := true }

/-! ### Component lemmas for the handler operations -/

@[simp] lemma writerHandle_kind (h : Handler) (t : Tweet) :
    (writerHandle h t).kind = h.kind := by
  cases h; simp only [writerHandle]; split_ifs <;> rfl

@[simp] lemma writerHandle_counter (h : Handler) (t : Tweet) :
    (writerHandle h t).counter = h.counter := by
  cases h; simp only [writerHandle]; split_ifs <;> rfl

@[simp] lemma writerHandle_limit (h : Handler) (t : Tweet) :
    (writerHandle h t).limit = h.limit := by
  cases h; simp only [writerHandle]; split_ifs <;> rfl

@[simp] lemma writerHandle_rpt (h : Handler) (t : Tweet) :
    (writerHandle h t).rpt = h.rpt := by
  cases h; simp only [writerHandle]; split_ifs <;> rfl

@[simp] lemma writerHandle_maxId (h : Handler) (t : Tweet) :
    (writerHandle h t).maxId = h.maxId := by
  cases h; simp only [writerHandle]; split_ifs <;> rfl

@[simp] lemma writerHandle_fins (h : Handler) (t : Tweet) :
    (writerHandle h t).fins = h.fins := by
  cases h; simp only [writerHandle]; split_ifs <;> rfl

@[simp] lemma writerHandle_dateLimit (h : Handler) (t : Tweet) :
    (writerHandle h t).dateLimit = h.dateLimit := by
  cases h; simp only [writerHandle]; split_ifs <;> rfl

@[simp] lemma writerHandle_stream (h : Handler) (t : Tweet) :
    (writerHandle h t).stream = h.stream := by
  cases h; simp only [writerHandle]; split_ifs <;> rfl

lemma writerHandle_doStop_mono (h : Handler) (t : Tweet) (hs : h.doStop = true) :
    (writerHandle h t).doStop = true := by
  cases h; simp only [writerHandle]; split_ifs <;> first | rfl | exact hs

@[simp] lemma handleTweet_kind (h : Handler) (t : Tweet) :
    (handleTweet h t).kind = h.kind := by
  unfold handleTweet; split <;> simp_all

@[simp] lemma handleTweet_rpt (h : Handler) (t : Tweet) :
    (handleTweet h t).rpt = h.rpt := by
  unfold handleTweet; split <;> simp_all

@[simp] lemma handleTweet_limit (h : Handler) (t : Tweet) :
    (handleTweet h t).limit = h.limit := by
  unfold handleTweet; split <;> simp_all

@[simp] lemma handleTweet_maxId (h : Handler) (t : Tweet) :
    (handleTweet h t).maxId = h.maxId := by
  unfold handleTweet; split <;> simp_all

@[simp] lemma handleTweet_fins (h : Handler) (t : Tweet) :
    (handleTweet h t).fins = h.fins := by
  unfold handleTweet; split <;> simp_all

@[simp] lemma onFinishH_kind (h : Handler) : (onFinishH h).kind = h.kind := by
  unfold onFinishH; split <;> first | rfl | (dsimp only; split <;> rfl)

@[simp] lemma onFinishH_counter (h : Handler) : (onFinishH h).counter = h.counter := by
  unfold onFinishH; split <;> first | rfl | (dsimp only; split <;> rfl)

@[simp] lemma onFinishH_rpt (h : Handler) : (onFinishH h).rpt = h.rpt := by
  unfold onFinishH; split <;> first | rfl | (dsimp only; split <;> rfl)

@[simp] lemma onFinishH_maxId (h : Handler) : (onFinishH h).maxId = h.maxId := by
  unfold onFinishH; split <;> first | rfl | (dsimp only; split <;> rfl)

@[simp] lemma onFinishH_doStop (h : Handler) : (onFinishH h).doStop = h.doStop := by
  unfold onFinishH; split <;> first | rfl | (dsimp only; split <;> rfl)

@[simp] lemma onFinishH_limit (h : Handler) : (onFinishH h).limit = h.limit := by
  unfold onFinishH; split <;> first | rfl | (dsimp only; split <;> rfl)

@[simp] lemma restartFile_kind (h : Handler) : (restartFile h).kind = h.kind := by
  simp [restartFile]

@[simp] lemma restartFile_rpt (h : Handler) : (restartFile h).rpt = h.rpt := by
  simp [restartFile]

@[simp] lemma restartFile_maxId (h : Handler) : (restartFile h).maxId = h.maxId := by
  simp [restartFile]

@[simp] lemma restartFile_doStop (h : Handler) : (restartFile h).doStop = h.doStop := by
  simp [restartFile]

@[simp] lemma restartFile_limit (h : Handler) : (restartFile h).limit = h.limit := by
  simp [restartFile]

@[simp] lemma restartFile_counter (h : Handler) : (restartFile h).counter = 0 := rfl

@[simp] lemma restartFile_startingup (h : Handler) : (restartFile h).startingup = true := rfl

/-- `do_continue` either leaves the handler alone or rotates it. -/
lemma doContinue_fst (h : Handler) :
    (doContinue h).1 = h ∨ (doContinue h).1 = restartFile h := by
  unfold doContinue
  cases hk : h.kind
  · exact Or.inl rfl
  · exact Or.inl rfl
  · split_ifs <;> first | exact Or.inl rfl | exact Or.inr rfl

@[simp] lemma doContinue_kind (h : Handler) : (doContinue h).1.kind = h.kind := by
  rcases doContinue_fst h with e | e <;> rw [e] <;> first | rfl | simp

@[simp] lemma doContinue_rpt (h : Handler) : (doContinue h).1.rpt = h.rpt := by
  rcases doContinue_fst h with e | e <;> rw [e] <;> first | rfl | simp

@[simp] lemma doContinue_maxId (h : Handler) : (doContinue h).1.maxId = h.maxId := by
  rcases doContinue_fst h with e | e <;> rw [e] <;> first | rfl | simp

@[simp] lemma doContinue_doStop (h : Handler) : (doContinue h).1.doStop = h.doStop := by
  rcases doContinue_fst h with e | e <;> rw [e] <;> first | rfl | simp

@[simp] lemma doContinue_limit (h : Handler) : (doContinue h).1.limit = h.limit := by
  rcases doContinue_fst h with e | e <;> rw [e] <;> first | rfl | simp

/-- A handler that is not a `TweetWriter` answers with the default
predicate and is left unchanged. -/
lemma doContinue_of_not_writer (h : Handler) (hk : h.kind ≠ .writer) :
    doContinue h = (h, defaultDoContinue h) := by
  unfold doContinue
  cases hkk : h.kind <;> simp_all

/-- A `TweetWriter` with `repeat` off delegates to the default
predicate and is left unchanged (in particular, `do_stop` is ignored). -/
lemma doContinue_of_rpt_false (h : Handler) (hk : h.kind = .writer) (hr : h.rpt = false) :
    doContinue h = (h, defaultDoContinue h) := by
  unfold doContinue
  rw [hk]; simp [hr]

/-- `fins` is unchanged by `do_continue` unless a rotation happens,
which requires `repeat`. -/
lemma doContinue_fins_of_rpt_false (h : Handler) (hr : h.rpt = false) :
    (doContinue h).1.fins = h.fins := by
  unfold doContinue
  cases hk : h.kind <;> simp [hr]

/-! ### Invariants of the yield loop -/

lemma yieldPage_terrs : ∀ (l : List Tweet) (st : GenSt),
    (yieldPage l st).1.terrs = st.terrs := by
  intro l
  induction l with
  | nil => intro st; rfl
  | cons t rest ih =>
    intro st
    simp only [yieldPage]
    split
    · rw [ih]
    · rfl

lemma yieldPage_kind : ∀ (l : List Tweet) (st : GenSt),
    (yieldPage l st).1.h.kind = st.h.kind := by
  intro l
  induction l with
  | nil => intro st; rfl
  | cons t rest ih =>
    intro st
    simp only [yieldPage]
    split
    · rw [ih]; simp
    · simp

lemma yieldPage_rpt : ∀ (l : List Tweet) (st : GenSt),
    (yieldPage l st).1.h.rpt = st.h.rpt := by
  intro l
  induction l with
  | nil => intro st; rfl
  | cons t rest ih =>
    intro st
    simp only [yieldPage]
    split
    · rw [ih]; simp
    · simp

lemma yieldPage_maxId : ∀ (l : List Tweet) (st : GenSt),
    (yieldPage l st).1.h.maxId = st.h.maxId := by
  intro l
  induction l with
  | nil => intro st; rfl
  | cons t rest ih =>
    intro st
    simp only [yieldPage]
    split
    · rw [ih]; simp
    · simp

lemma yieldPage_fins : ∀ (l : List Tweet) (st : GenSt), st.h.rpt = false →
    (yieldPage l st).1.h.fins = st.h.fins := by
  intro l
  induction l with
  | nil => intro st _; rfl
  | cons t rest ih =>
    intro st hr
    simp only [yieldPage]
    split
    · rw [ih]
      · simp [doContinue_fins_of_rpt_false, hr]
      · simp [hr]
    · simp [doContinue_fins_of_rpt_false, hr]

lemma yieldPage_prefix : ∀ (l : List Tweet) (st : GenSt),
    st.yields <+: (yieldPage l st).1.yields := by
  intro l
  induction l with
  | nil => intro st; exact List.prefix_rfl
  | cons t rest ih =>
    intro st
    simp only [yieldPage]
    split
    · exact List.IsPrefix.trans (by simp) (ih _)
    · simp

/-! ### Invariants of the result-processing block -/

/-- The non-empty case of `afterFetch` as one equation: the cursor is
stored on the handler and the page is fed through the yield loop. -/
lemma afterFetch_cons (t : Tweet) (rest : List Tweet) (st : GenSt) :
    afterFetch (t :: rest) st =
      ((yieldPage (t :: rest)
          { st with h := { st.h with maxId := some (pageCursor (t :: rest)) } }).1,
       if (yieldPage (t :: rest)
          { st with h := { st.h with maxId := some (pageCursor (t :: rest)) } }).2
       then some (pageCursor (t :: rest)) else none) := by
  simp only [afterFetch]
  cases hyp : yieldPage (t :: rest)
      { st with h := { st.h with maxId := some (pageCursor (t :: rest)) } } with
  | mk st2 b => cases b <;> simp [hyp]

lemma afterFetch_terrs (ids : List Tweet) (st : GenSt) :
    (afterFetch ids st).1.terrs = st.terrs := by
  cases ids with
  | nil => rfl
  | cons t rest => rw [afterFetch_cons]; exact yieldPage_terrs _ _

lemma afterFetch_rpt (ids : List Tweet) (st : GenSt) :
    (afterFetch ids st).1.h.rpt = st.h.rpt := by
  cases ids with
  | nil => rfl
  | cons t rest => rw [afterFetch_cons]; rw [yieldPage_rpt]

lemma afterFetch_kind (ids : List Tweet) (st : GenSt) :
    (afterFetch ids st).1.h.kind = st.h.kind := by
  cases ids with
  | nil => rfl
  | cons t rest => rw [afterFetch_cons]; rw [yieldPage_kind]

lemma afterFetch_fins (ids : List Tweet) (st : GenSt) (hr : st.h.rpt = false) :
    (afterFetch ids st).1.h.fins = st.h.fins := by
  cases ids with
  | nil => rfl
  | cons t rest =>
    rw [afterFetch_cons]
    rw [yieldPage_fins]
    simp [hr]

/-- Every successful non-empty pagination page stores the freshly
computed cursor on the handler. -/
lemma afterFetch_maxId (ids : List Tweet) (st : GenSt) (hne : ids ≠ []) :
    (afterFetch ids st).1.h.maxId = some (pageCursor ids) := by
  cases ids with
  | nil => exact absurd rfl hne
  | cons t rest =>
    rw [afterFetch_cons]
    rw [yieldPage_maxId]

lemma afterFetch_prefix (ids : List Tweet) (st : GenSt) :
    st.yields <+: (afterFetch ids st).1.yields := by
  cases ids with
  | nil => exact List.prefix_rfl
  | cons t rest =>
    rw [afterFetch_cons]
    exact yieldPage_prefix (t :: rest)
      { st with h := { st.h with maxId := some (pageCursor (t :: rest)) } }

/-! ### Invariants of the pagination loop -/

/-- In the pagination loop, `retries` counts exactly the transport
errors met so far; the error is re-raised precisely when the
`retriesAfter + 1`-st one arrives. -/
lemma pagLoop_raised_terrs (qlimit ra : Nat) :
    ∀ (script : List ApiResult) (cfq retries : Nat) (results : Option (List Tweet))
      (m : Int) (st st' : GenSt), st.terrs = retries →
      pagLoop qlimit ra script cfq retries results m st = (st', .raisedTransport) →
      st'.terrs = ra + 1 := by
  intro script
  induction script with
  | nil =>
    intro cfq retries results m st st' hterr heq
    simp only [pagLoop] at heq
    split at heq <;> simp_all
  | cons head rest ih =>
    intro cfq retries results m st st' hterr heq
    cases head with
    | rateLimit =>
      simp only [pagLoop] at heq
      split at heq
      · simp_all
      · exact ih cfq retries results m _ st' (by simpa using hterr) heq
    | transport =>
      simp only [pagLoop] at heq
      split at heq
      · simp_all
      · split at heq
        · next hra =>
            injection heq with h1 h2
            subst h1
            simp only [GenSt.mk.injEq] at *
            omega
        · next hra =>
            split at heq
            · simp_all
            · next ids =>
                split at heq
                · simp_all
                · next st2 m2 hfa =>
                    refine ih _ _ _ _ _ _ ?_ heq
                    have ht := afterFetch_terrs ids { st with terrs := st.terrs + 1 }
                    rw [hfa] at ht
                    simp at ht
                    omega
    | page ids =>
      simp only [pagLoop] at heq
      split at heq
      · simp_all
      · split at heq
        · simp_all
        · next st2 m2 hfa =>
            refine ih _ _ _ _ _ _ ?_ heq
            have ht := afterFetch_terrs ids st
            rw [hfa] at ht
            simp at ht
            omega

lemma pagLoop_rpt (qlimit ra : Nat) :
    ∀ (script : List ApiResult) (cfq retries : Nat) (results : Option (List Tweet))
      (m : Int) (st : GenSt),
      (pagLoop qlimit ra script cfq retries results m st).1.h.rpt = st.h.rpt := by
  intro script
  induction script with
  | nil =>
    intro cfq retries results m st
    simp only [pagLoop]
    split <;> rfl
  | cons head rest ih =>
    intro cfq retries results m st
    cases head with
    | rateLimit =>
      simp only [pagLoop]
      split
      · rfl
      · rw [ih]
    | transport =>
      simp only [pagLoop]
      split
      · rfl
      · split
        · rfl
        · split
          · rfl
          · next ids =>
              split
              · next st2 hfa =>
                  have hr := afterFetch_rpt ids { st with terrs := st.terrs + 1 }
                  rw [hfa] at hr
                  exact hr
              · next st2 m2 hfa =>
                  rw [ih]
                  have hr := afterFetch_rpt ids { st with terrs := st.terrs + 1 }
                  rw [hfa] at hr
                  exact hr
    | page ids =>
      simp only [pagLoop]
      split
      · rfl
      · split
        · next st2 hfa =>
            have hr := afterFetch_rpt ids st
            rw [hfa] at hr
            exact hr
        · next st2 m2 hfa =>
            rw [ih]
            have hr := afterFetch_rpt ids st
            rw [hfa] at hr
            exact hr

lemma pagLoop_fins (qlimit ra : Nat) :
    ∀ (script : List ApiResult) (cfq retries : Nat) (results : Option (List Tweet))
      (m : Int) (st : GenSt), st.h.rpt = false →
      (pagLoop qlimit ra script cfq retries results m st).1.h.fins = st.h.fins := by
  intro script
  induction script with
  | nil =>
    intro cfq retries results m st _
    simp only [pagLoop]
    split <;> rfl
  | cons head rest ih =>
    intro cfq retries results m st hr
    cases head with
    | rateLimit =>
      simp only [pagLoop]
      split
      · rfl
      · rw [ih _ _ _ _ _ (by simpa using hr)]
    | transport =>
      simp only [pagLoop]
      split
      · rfl
      · split
        · rfl
        · split
          · rfl
          · next ids =>
              split
              · next st2 hfa =>
                  have hf := afterFetch_fins ids { st with terrs := st.terrs + 1 } (by simpa using hr)
                  rw [hfa] at hf
                  exact hf
              · next st2 m2 hfa =>
                  have hf := afterFetch_fins ids { st with terrs := st.terrs + 1 } (by simpa using hr)
                  have hrp := afterFetch_rpt ids { st with terrs := st.terrs + 1 }
                  rw [hfa] at hf hrp
                  rw [ih _ _ _ _ _ (by rw [hrp]; simpa using hr)]
                  exact hf
    | page ids =>
      simp only [pagLoop]
      split
      · rfl
      · split
        · next st2 hfa =>
            have hf := afterFetch_fins ids st hr
            rw [hfa] at hf
            exact hf
        · next st2 m2 hfa =>
            have hf := afterFetch_fins ids st hr
            have hrp := afterFetch_rpt ids st
            rw [hfa] at hf hrp
            rw [ih _ _ _ _ _ (by rw [hrp]; exact hr)]
            exact hf

lemma pagLoop_prefix (qlimit ra : Nat) :
    ∀ (script : List ApiResult) (cfq retries : Nat) (results : Option (List Tweet))
      (m : Int) (st : GenSt),
      st.yields <+: (pagLoop qlimit ra script cfq retries results m st).1.yields := by
  intro script
  induction script with
  | nil =>
    intro cfq retries results m st
    simp only [pagLoop]
    split <;> exact List.prefix_rfl
  | cons head rest ih =>
    intro cfq retries results m st
    cases head with
    | rateLimit =>
      simp only [pagLoop]
      split
      · exact List.prefix_rfl
      · exact ih _ _ _ _ { st with sleeps := st.sleeps + 1 }
    | transport =>
      simp only [pagLoop]
      split
      · exact List.prefix_rfl
      · split
        · exact List.prefix_rfl
        · split
          · exact List.prefix_rfl
          · next ids =>
              split
              · next st2 hfa =>
                  have hp := afterFetch_prefix ids { st with terrs := st.terrs + 1 }
                  rw [hfa] at hp
                  exact hp
              · next st2 m2 hfa =>
                  have hp := afterFetch_prefix ids { st with terrs := st.terrs + 1 }
                  rw [hfa] at hp
                  exact List.IsPrefix.trans hp (ih _ _ _ _ st2)
    | page ids =>
      simp only [pagLoop]
      split
      · exact List.prefix_rfl
      · split
        · next st2 hfa =>
            have hp := afterFetch_prefix ids st
            rw [hfa] at hp
            exact hp
        · next st2 m2 hfa =>
            have hp := afterFetch_prefix ids st
            rw [hfa] at hp
            exact List.IsPrefix.trans hp (ih _ _ _ _ st2)


/-! ### Invariants of the initial block and the whole generator run -/

lemma initRun_raised_terrs (qlimit ra : Nat) (script : List ApiResult)
    (st st' : GenSt) (h0 : st.terrs = 0)
    (heq : initRun qlimit ra script st = (st', .raisedTransport)) :
    st'.terrs = ra + 1 := by
  cases script with
  | nil => simp [initRun] at heq
  | cons head rest =>
    cases head with
    | rateLimit => simp [initRun] at heq
    | transport => simp [initRun] at heq
    | page tweets =>
      cases tweets with
      | nil => simp [initRun] at heq
      | cons t ids =>
        simp only [initRun] at heq
        split at heq
        · next st1 hyp =>
            refine pagLoop_raised_terrs qlimit ra rest _ 0 _ _ st1 st' ?_ heq
            have ht := yieldPage_terrs (t :: ids) st
            rw [hyp] at ht
            simpa [h0] using ht
        · simp_all

lemma searchRun_raised_terrs (qlimit ra : Nat) (maxId0 : Option Int)
    (script : List ApiResult) (st st' : GenSt) (h0 : st.terrs = 0)
    (heq : searchRun qlimit ra maxId0 script st = (st', .raisedTransport)) :
    st'.terrs = ra + 1 := by
  cases maxId0 with
  | none => exact initRun_raised_terrs qlimit ra script st st' h0 heq
  | some m =>
    simp only [searchRun] at heq
    split at heq
    · exact initRun_raised_terrs qlimit ra script st st' h0 heq
    · exact pagLoop_raised_terrs qlimit ra script 0 0 none m st st' h0 heq

lemma initRun_rpt (qlimit ra : Nat) (script : List ApiResult) (st : GenSt) :
    (initRun qlimit ra script st).1.h.rpt = st.h.rpt := by
  cases script with
  | nil => rfl
  | cons head rest =>
    cases head with
    | rateLimit => rfl
    | transport => rfl
    | page tweets =>
      cases tweets with
      | nil => rfl
      | cons t ids =>
        simp only [initRun]
        split
        · next st1 hyp =>
            rw [pagLoop_rpt]
            have hr := yieldPage_rpt (t :: ids) st
            rw [hyp] at hr
            exact hr
        · next st1 hyp =>
            have hr := yieldPage_rpt (t :: ids) st
            rw [hyp] at hr
            exact hr

lemma initRun_fins (qlimit ra : Nat) (script : List ApiResult) (st : GenSt)
    (hr : st.h.rpt = false) :
    (initRun qlimit ra script st).1.h.fins = st.h.fins := by
  cases script with
  | nil => rfl
  | cons head rest =>
    cases head with
    | rateLimit => rfl
    | transport => rfl
    | page tweets =>
      cases tweets with
      | nil => rfl
      | cons t ids =>
        simp only [initRun]
        split
        · next st1 hyp =>
            have hf := yieldPage_fins (t :: ids) st hr
            have hrp := yieldPage_rpt (t :: ids) st
            rw [hyp] at hf hrp
            rw [pagLoop_fins _ _ _ _ _ _ _ _ (by rw [hrp]; exact hr)]
            exact hf
        · next st1 hyp =>
            have hf := yieldPage_fins (t :: ids) st hr
            rw [hyp] at hf
            exact hf

lemma searchRun_rpt (qlimit ra : Nat) (maxId0 : Option Int)
    (script : List ApiResult) (st : GenSt) :
    (searchRun qlimit ra maxId0 script st).1.h.rpt = st.h.rpt := by
  cases maxId0 with
  | none => exact initRun_rpt qlimit ra script st
  | some m =>
    simp only [searchRun]
    split
    · exact initRun_rpt qlimit ra script st
    · exact pagLoop_rpt qlimit ra script 0 0 none m st

lemma searchRun_fins (qlimit ra : Nat) (maxId0 : Option Int)
    (script : List ApiResult) (st : GenSt) (hr : st.h.rpt = false) :
    (searchRun qlimit ra maxId0 script st).1.h.fins = st.h.fins := by
  cases maxId0 with
  | none => exact initRun_fins qlimit ra script st hr
  | some m =>
    simp only [searchRun]
    split
    · exact initRun_fins qlimit ra script st hr
    · exact pagLoop_fins qlimit ra script 0 0 none m st hr

/-- The yield loop of the initial page leaves the handler cursor alone:
`search_tweets` keeps the initial cursor in the local variable only. -/
lemma initRun_maxId_single_page (qlimit ra : Nat) (t : Tweet) (ids : List Tweet)
    (st : GenSt) :
    (initRun qlimit ra [.page (t :: ids)] st).1.h.maxId = st.h.maxId := by
  simp only [initRun]
  split
  · next st1 hyp =>
      have hm := yieldPage_maxId (t :: ids) st
      rw [hyp] at hm
      rw [show (pagLoop qlimit ra [] (t :: ids).length 0 (some (t :: ids))
            (pageCursor (t :: ids)) st1).1.h.maxId = st1.h.maxId from ?_]
      · exact hm
      · simp only [pagLoop]
        split <;> rfl
  · next st1 hyp =>
      have hm := yieldPage_maxId (t :: ids) st
      rw [hyp] at hm
      exact hm


/-! ### Lemmas about the streaming engine -/

lemma handleTweet_basic (h : Handler) (t : Tweet) (hk : h.kind = .basic) :
    handleTweet h t = h := by
  unfold handleTweet; rw [hk]

lemma handleTweet_viewer (h : Handler) (t : Tweet) (hk : h.kind = .viewer) :
    handleTweet h t = { h with counter := h.counter + 1 } := by
  unfold handleTweet; rw [hk]

lemma handleTweet_writer (h : Handler) (t : Tweet) (hk : h.kind = .writer) :
    handleTweet h t = writerHandle h t := by
  unfold handleTweet; rw [hk]

/-- One step of the streaming engine while the flag is up. -/
lemma streamRun_cons_true (t : Tweet) (rest : List Tweet) (h : Handler) :
    streamRun (t :: rest) h true =
      if t.hasText then
        streamRun rest (doContinue (handleTweet { h with counter := h.counter + 1 } t)).1
          (doContinue (handleTweet { h with counter := h.counter + 1 } t)).2
      else streamRun rest h true := rfl

/-- Once the continuation flag is false, the next inbound item tears the
stream down: nothing is handled any more, and `on_finish` runs once. -/
lemma streamRun_flagFalse (rs : List Tweet) (h : Handler) :
    streamRun rs h false =
      if rs.isEmpty then (h, false, 0) else (onFinishH h, false, 1) := by
  cases rs <;> rfl

/-- The engine never calls `on_finish` more than once per session. -/
lemma streamRun_fins_le_one : ∀ (rs : List Tweet) (h : Handler) (flag : Bool),
    (streamRun rs h flag).2.2 ≤ 1 := by
  intro rs
  induction rs with
  | nil => intro h flag; exact Nat.zero_le 1
  | cons t rest ih =>
    intro h flag
    cases flag
    · exact Nat.le_refl 1
    · rw [streamRun_cons_true]
      split
      · exact ih _ _
      · exact ih _ _

/-- Splitting a streaming session: once the teardown has happened,
later items are never consumed. -/
lemma streamRun_append : ∀ (rs ext : List Tweet) (h : Handler) (flag : Bool),
    streamRun (rs ++ ext) h flag =
      if (streamRun rs h flag).2.2 = 0
      then streamRun ext (streamRun rs h flag).1 (streamRun rs h flag).2.1
      else streamRun rs h flag := by
  intro rs
  induction rs with
  | nil => intro ext h flag; simp [streamRun]
  | cons t rest ih =>
    intro ext h flag
    cases flag
    · rw [streamRun_flagFalse, streamRun_flagFalse]
      simp
    · rw [List.cons_append, streamRun_cons_true, streamRun_cons_true]
      split
      · exact ih ext _ _
      · exact ih ext _ _


/-- Counter evolution of a `TweetViewer` streaming session: every record
adds 2 to the counter (engine increment plus `TweetViewer.handle`), and
the session flag drops at the first record that pushes the counter to
`limit` or beyond, i.e. after `(limit + 1) / 2` records. -/
lemma streamRun_viewer_count : ∀ (rs : List Tweet) (k : Nat) (h : Handler),
    h.kind = .viewer → h.counter = 2 * k → (∀ t ∈ rs, t.hasText = true) →
    2 * k < h.limit →
    (streamRun rs h true).1.counter = 2 * min (k + rs.length) ((h.limit + 1) / 2) ∧
    (streamRun rs h true).2.1 =
      decide (2 * min (k + rs.length) ((h.limit + 1) / 2) < h.limit) := by
  intro rs
  induction rs with
  | nil =>
    intro k h hk hc htext hlt
    refine ⟨?_, ?_⟩
    · simp only [streamRun, List.length_nil]
      omega
    · simp only [streamRun, List.length_nil]
      rw [eq_comm, decide_eq_true_eq]
      omega
  | cons t rest ih =>
    intro k h hk hc htext hlt
    have htx : t.hasText = true := htext t (List.mem_cons_self t rest)
    rw [streamRun_cons_true, if_pos htx]
    rw [handleTweet_viewer _ _ (by simpa using hk)]
    rw [doContinue_of_not_writer _ (by simp [hk])]
    dsimp only
    by_cases hnext : h.counter + 1 + 1 < h.limit
    · have hdc : defaultDoContinue { h with counter := h.counter + 1 + 1 } = true := by
        simp only [defaultDoContinue]
        simp only [decide_eq_true_eq]
        exact hnext
      rw [hdc]
      have hrec := ih (k + 1) { h with counter := h.counter + 1 + 1 }
        (by simpa using hk) (by simp; omega)
        (fun t' ht' => htext t' (List.mem_cons_of_mem _ ht')) (by simp; omega)
      simp only at hrec
      refine ⟨?_, ?_⟩
      · rw [hrec.1]
        simp only [List.length_cons]
        omega
      · rw [hrec.2]
        simp only [List.length_cons, decide_eq_decide]
        omega
    · have hdc : defaultDoContinue { h with counter := h.counter + 1 + 1 } = false := by
        simp only [defaultDoContinue]
        simp only [decide_eq_false_iff_not]
        exact hnext
      rw [hdc, streamRun_flagFalse]
      refine ⟨?_, ?_⟩
      · split
        · simp only [List.length_cons]
          omega
        · simp only [onFinishH_counter, List.length_cons]
          omega
      · split
        · simp only [List.length_cons]
          rw [eq_comm, decide_eq_false_iff_not]
          omega
        · simp only [List.length_cons]
          rw [eq_comm, decide_eq_false_iff_not]
          omega


/-! ### The repeat-mode writer invariant -/

/-- State invariant of a repeat-mode `TweetWriter` with no date boundary
between two records of a streaming session: the counter counts the
records in the open target, rotation bookkeeping is consistent, and
every closed target holds exactly `limit` records. -/
def WInv (limit : Nat) (h : Handler) : Prop :=
  h.kind = .writer ∧ h.rpt = true ∧ h.dateLimit = none ∧ h.doStop = false ∧
  h.limit = limit ∧ h.counter < limit ∧
  h.startingup = decide (h.counter = 0) ∧
  h.outputOpen = decide (h.counter ≠ 0) ∧
  (h.counter ≠ 0 → h.curFile.length = h.counter) ∧
  (∀ f ∈ h.closedFiles, f.length = limit)

/-- One engine step (counter increment, `handle`, `do_continue`) of a
repeat-mode writer: the continuation answer is always `true`, the
invariant is preserved, and the total record count grows by one. -/
lemma winv_step (limit : Nat) (h : Handler) (t : Tweet) (hw : WInv limit h) :
    (doContinue (writerHandle { h with counter := h.counter + 1 } t)).2 = true ∧
    WInv limit (doContinue (writerHandle { h with counter := h.counter + 1 } t)).1 ∧
    (doContinue (writerHandle { h with counter := h.counter + 1 } t)).1.closedFiles.length * limit
        + (doContinue (writerHandle { h with counter := h.counter + 1 } t)).1.counter
      = h.closedFiles.length * limit + h.counter + 1 := by
  obtain ⟨hk, hr, hdl, hds, hlim, hclt, hsu, hoo, hcf, hclosed⟩ := hw
  obtain ⟨k, c, lim, r, ds, su, mi, dl, strm, oo, cf, cff, f, d⟩ := h
  simp only at hk hr hdl hds hlim hclt hsu hoo hcf hclosed
  subst hk hr hdl hds hlim
  rw [hsu, hoo]
  by_cases hc0 : c = 0
  · subst hc0
    by_cases hcl : 0 + 1 = lim
    · have hlim1 : lim = 1 := by omega
      subst hlim1
      simp [writerHandle, crossesLimit, doContinue, restartFile, onFinishH,
        defaultDoContinue, WInv]
      intro g hg
      rcases hg with hg | rfl
      · exact hclosed g hg
      · simp
    · simp [writerHandle, crossesLimit, doContinue, restartFile, onFinishH,
        defaultDoContinue, WInv, hcl]
      exact ⟨by omega, hclosed⟩
  · by_cases hcl : c + 1 = lim
    · simp [writerHandle, crossesLimit, doContinue, restartFile, onFinishH,
        defaultDoContinue, WInv, hc0, hcl]
      refine ⟨⟨by omega, ?_⟩, ?_⟩
      · intro g hg
        rcases hg with hg | rfl
        · exact hclosed g hg
        · simp only [List.length_append, List.length_singleton]
          rw [hcf hc0]
          omega
      · rw [Nat.add_mul]
        omega
    · simp [writerHandle, crossesLimit, doContinue, restartFile, onFinishH,
        defaultDoContinue, WInv, hc0, hcl]
      exact ⟨⟨by omega, hcf hc0, hclosed⟩, by omega⟩


/-- A full streaming session of a repeat-mode writer with no date
boundary: the continuation flag never drops, no teardown happens, the
invariant holds throughout, and the closed files plus the open file
account for every record. -/
lemma streamRun_writer_inv : ∀ (rs : List Tweet) (h : Handler) (limit : Nat),
    WInv limit h → (∀ t ∈ rs, t.hasText = true) →
    (streamRun rs h true).2.1 = true ∧ (streamRun rs h true).2.2 = 0 ∧
    WInv limit (streamRun rs h true).1 ∧
    (streamRun rs h true).1.closedFiles.length * limit
        + (streamRun rs h true).1.counter
      = h.closedFiles.length * limit + h.counter + rs.length := by
  intro rs
  induction rs with
  | nil =>
    intro h limit hw htext
    exact ⟨rfl, rfl, hw, by simp [streamRun]⟩
  | cons t rest ih =>
    intro h limit hw htext
    have htx : t.hasText = true := htext t (List.mem_cons_self t rest)
    have htext2 : ∀ t2 ∈ rest, t2.hasText = true :=
      fun t2 ht2 => htext t2 (List.mem_cons_of_mem _ ht2)
    obtain ⟨hflag, hwinv, htot⟩ := winv_step limit h t hw
    rw [streamRun_cons_true, if_pos htx]
    rw [handleTweet_writer _ _ (by simpa using hw.1)]
    rw [hflag]
    obtain ⟨e1, e2, e3, e4⟩ := ih _ limit hwinv htext2
    refine ⟨e1, e2, e3, ?_⟩
    rw [e4, htot]
    simp only [List.length_cons]
    omega

/-! ### Lemmas for the date-boundary behaviour of the writer -/

/-- The boundary test only reads `date_limit` and `stream`, which
`handle` never changes. -/
lemma crossesLimit_writerHandle (h : Handler) (t2 t : Tweet) :
    crossesLimit (writerHandle h t2) t = crossesLimit h t := by
  unfold crossesLimit
  rw [writerHandle_dateLimit, writerHandle_stream]

/-- A record crossing the boundary: `do_stop` is set, a diagnostic is
printed, and the early return skips the `startingup = False` line (and
the counter is never touched by `handle`). -/
lemma writerHandle_crossing (h : Handler) (t : Tweet) (hc : crossesLimit h t = true) :
    (writerHandle h t).doStop = true ∧ (writerHandle h t).diags = h.diags + 1 ∧
    (writerHandle h t).startingup = h.startingup ∧
    (writerHandle h t).counter = h.counter := by
  obtain ⟨k, c, lim, r, ds, su, mi, dl, strm, oo, cf, cff, f, d⟩ := h
  simp only [crossesLimit] at hc
  cases su <;> simp [writerHandle, crossesLimit, hc]

/-- A record on the allowed side of the boundary is processed normally:
`do_stop` is untouched and `startingup` is cleared. -/
lemma writerHandle_noncrossing (h : Handler) (t : Tweet) (hc : crossesLimit h t = false) :
    (writerHandle h t).doStop = h.doStop ∧ (writerHandle h t).diags = h.diags ∧
    (writerHandle h t).startingup = false := by
  obtain ⟨k, c, lim, r, ds, su, mi, dl, strm, oo, cf, cff, f, d⟩ := h
  simp only [crossesLimit] at hc
  cases su <;> simp [writerHandle, crossesLimit, hc]

/-- Feeding a writer a sequence of records that all cross the boundary:
every one of them skips the completion bookkeeping (`startingup` is
never cleared), each prints a diagnostic, and `do_stop` ends up set. -/
lemma foldl_writerHandle_crossing : ∀ (ts : List Tweet) (h : Handler),
    (∀ t2 ∈ ts, crossesLimit h t2 = true) →
    (ts.foldl writerHandle h).startingup = h.startingup ∧
    (ts.foldl writerHandle h).diags = h.diags + ts.length ∧
    (ts ≠ [] → (ts.foldl writerHandle h).doStop = true) := by
  intro ts
  induction ts with
  | nil => intro h _; exact ⟨rfl, by simp, fun hne => absurd rfl hne⟩
  | cons t ts ih =>
    intro h hcross
    have hct : crossesLimit h t = true := hcross t (List.mem_cons_self t ts)
    obtain ⟨ha, hb, hcc, hd⟩ := writerHandle_crossing h t hct
    have hcross2 : ∀ t2 ∈ ts, crossesLimit (writerHandle h t) t2 = true := by
      intro t2 ht2
      rw [crossesLimit_writerHandle]
      exact hcross t2 (List.mem_cons_of_mem _ ht2)
    obtain ⟨e1, e2, e3⟩ := ih (writerHandle h t) hcross2
    simp only [List.foldl_cons]
    refine ⟨?_, ?_, ?_⟩
    · rw [e1, hcc]
    · rw [e2, hb]
      simp only [List.length_cons]
      omega
    · intro _
      cases ts with
      | nil => simpa using ha
      | cons t3 ts3 => exact e3 (by simp)

/-- A repeat-mode writer with `do_stop` set: `do_continue` answers
`false` and performs no rotation (the handler is returned unchanged). -/
lemma doContinue_writer_stop (h : Handler) (hk : h.kind = .writer)
    (hr : h.rpt = true) (hds : h.doStop = true) :
    doContinue h = (h, false) := by
  unfold doContinue
  rw [hk]
  simp [hr, hds]

/-! ### The dispatch loop calls `on_finish` exactly at its normal stop -/

lemma dispatchLoop_fins_eq : ∀ (qlimit : Nat) (scripts : List (List ApiResult)) (st : GenSt),
    (dispatchLoop qlimit scripts st).2.2 =
      if (dispatchLoop qlimit scripts st).2.1 = .normal then 1 else 0 := by
  intro qlimit scripts
  induction scripts with
  | nil => intro st; simp [dispatchLoop]
  | cons script rest ih =>
    intro st
    simp only [dispatchLoop]
    rcases hsr : searchRun qlimit 0 (if st.h.kind = HKind.writer then st.h.maxId else none)
        script st with ⟨st1, o⟩
    cases o with
    | finished =>
      dsimp only
      split
      · exact ih _
      · simp
    | raisedInit => simp
    | raisedTransport => simp
    | nameError => simp
    | outOfScript => simp


/-! ### Full pages through the yield loop -/

/-- A page through the yield loop with a `BasicTweetHandler` whose
capacity suffices: every record is yielded, one counter increment per
record, and nothing else changes. -/
lemma yieldPage_basic_run : ∀ (l : List Tweet) (st : GenSt), st.h.kind = .basic →
    st.h.counter + l.length ≤ st.h.limit →
    (yieldPage l st).1 = { st with
      yields := st.yields ++ l
      h := { st.h with counter := st.h.counter + l.length } } := by
  intro l
  induction l with
  | nil =>
    intro st hk hle
    simp [yieldPage]
  | cons t rest ih =>
    intro st hk hle
    simp only [yieldPage]
    rw [handleTweet_basic _ _ (by simpa using hk)]
    rw [doContinue_of_not_writer _ (by simp [hk])]
    dsimp only
    split
    · rw [ih _ (by simpa using hk) (by simp only [List.length_cons] at hle; simp; omega)]
      simp only [List.length_cons, List.append_assoc, List.singleton_append]
      congr 2
      omega
    · next hflag =>
        have hrest : rest = [] := by
          simp only [defaultDoContinue, decide_eq_true_eq] at hflag
          simp only [List.length_cons] at hle
          have : rest.length = 0 := by simp at hflag; omega
          exact List.length_eq_zero.mp this
        subst hrest
        simp

/-- A page through the yield loop with a `TweetViewer` in the dispatch
loop: the consumer `handle` and the generator each increment, so every
record adds 2 to the counter. -/
lemma yieldPage_viewer_run : ∀ (l : List Tweet) (st : GenSt), st.h.kind = .viewer →
    st.h.counter + 2 * l.length ≤ st.h.limit →
    (yieldPage l st).1 = { st with
      yields := st.yields ++ l
      h := { st.h with counter := st.h.counter + 2 * l.length } } := by
  intro l
  induction l with
  | nil =>
    intro st hk hle
    simp [yieldPage]
  | cons t rest ih =>
    intro st hk hle
    simp only [yieldPage]
    rw [handleTweet_viewer _ _ (by simpa using hk)]
    rw [doContinue_of_not_writer _ (by simp [hk])]
    dsimp only
    split
    · rw [ih _ (by simpa using hk) (by simp only [List.length_cons] at hle; simp; omega)]
      simp only [List.length_cons, List.append_assoc, List.singleton_append]
      congr 2
      omega
    · next hflag =>
        have hrest : rest = [] := by
          simp only [defaultDoContinue, decide_eq_true_eq] at hflag
          simp only [List.length_cons] at hle
          have : rest.length = 0 := by simp at hflag; omega
          exact List.length_eq_zero.mp this
        subst hrest
        simp only [List.length_cons, List.length_nil]


/-! ## The claims -/

/-- Claim C1 (confirmed): for every `search_tweets` call with
`retries_after_twython_exception = n`, a transport error raised by a
pagination page request is propagated as fatal only once it has occurred
`n + 1` times (at most `n` occurrences are absorbed first), and a
rate-limit error is absorbed by a 15-minute sleep without touching the
retry bound or anything else. -/
theorem claim_C1 :
    (∀ (qlimit ra : Nat) (maxId0 : Option Int) (script : List ApiResult) (st st2 : GenSt),
      st.terrs = 0 →
      searchRun qlimit ra maxId0 script st = (st2, .raisedTransport) →
      st2.terrs = ra + 1) ∧
    (∀ (qlimit ra : Nat) (rest : List ApiResult) (cfq retries : Nat)
      (results : Option (List Tweet)) (m : Int) (st : GenSt), cfq < qlimit →
      pagLoop qlimit ra (.rateLimit :: rest) cfq retries results m st =
        pagLoop qlimit ra rest cfq retries results m { st with sleeps := st.sleeps + 1 }) := by
  constructor
  · intro qlimit ra maxId0 script st st2 h0 heq
    exact searchRun_raised_terrs qlimit ra maxId0 script st st2 h0 heq
  · intro qlimit ra rest cfq retries results m st hlt
    simp only [pagLoop]
    rw [if_neg (by omega)]

/-- Witness for C1: with one retry allowed, the second transport error of
the pagination loop is re-raised and exactly two were counted; a
rate-limit response only adds one sleep. -/
theorem claim_C1_witness :
    (searchRun 5 1 (some 50) [.page [mkTweet 9 0], .transport, .transport]
        (genSt (freshWriter 10 none false false))).1.terrs = 1 + 1 ∧
    pagLoop 3 0 [ApiResult.rateLimit] 1 0 none 7 (genSt (freshWriter 10 none false false)) =
      pagLoop 3 0 [] 1 0 none 7
        { genSt (freshWriter 10 none false false) with
            sleeps := (genSt (freshWriter 10 none false false)).sleeps + 1 } := by
  constructor
  · exact claim_C1.1 5 1 (some 50) [.page [mkTweet 9 0], .transport, .transport]
      (genSt (freshWriter 10 none false false)) _ rfl (by decide)
  · exact claim_C1.2 3 0 [] 1 0 none 7 (genSt (freshWriter 10 none false false)) (by omega)

/-- Claim C4 (confirmed): with a configured date boundary, a record
dated after the boundary in streaming mode, or before it in search mode
("crossing"), makes `TweetWriter.handle` set `do_stop`, print a
diagnostic, and return before the normal completion bookkeeping (the
`startingup = False` line is skipped and the counter is never touched by
`handle`); a whole run of crossing records keeps all of them excluded;
a record on the other side is processed normally. -/
theorem claim_C4 :
    (∀ (h : Handler) (t : Tweet) (dd : Int), h.dateLimit = some dd →
      (crossesLimit h t = true ↔
        ((h.stream = true ∧ dd < t.date) ∨ (h.stream = false ∧ t.date < dd)))) ∧
    (∀ (h : Handler) (t : Tweet), crossesLimit h t = true →
      (writerHandle h t).doStop = true ∧ (writerHandle h t).diags = h.diags + 1 ∧
      (writerHandle h t).startingup = h.startingup ∧
      (writerHandle h t).counter = h.counter) ∧
    (∀ (h : Handler) (t : Tweet), h.dateLimit.isSome = true → crossesLimit h t = false →
      (writerHandle h t).doStop = h.doStop ∧ (writerHandle h t).diags = h.diags ∧
      (writerHandle h t).startingup = false) ∧
    (∀ (h : Handler) (t : Tweet) (ts : List Tweet),
      crossesLimit h t = true → (∀ t2 ∈ ts, crossesLimit h t2 = true) →
      ((t :: ts).foldl writerHandle h).doStop = true ∧
      ((t :: ts).foldl writerHandle h).startingup = h.startingup ∧
      ((t :: ts).foldl writerHandle h).diags = h.diags + (t :: ts).length) := by
  refine ⟨?_, ?_, ?_, ?_⟩
  · intro h t dd hdd
    cases hstrm : h.stream <;>
      simp [crossesLimit, hdd, hstrm]
  · intro h t hc
    exact writerHandle_crossing h t hc
  · intro h t _ hc
    exact writerHandle_noncrossing h t hc
  · intro h t ts hct hcross
    have hcross2 : ∀ t2 ∈ ts, crossesLimit (writerHandle h t) t2 = true := by
      intro t2 ht2
      rw [crossesLimit_writerHandle]
      exact hcross t2 ht2
    obtain ⟨e1, e2, e3⟩ := foldl_writerHandle_crossing ts (writerHandle h t) hcross2
    obtain ⟨ha, hb, hcc, hd⟩ := writerHandle_crossing h t hct
    simp only [List.foldl_cons]
    refine ⟨?_, ?_, ?_⟩
    · cases ts with
      | nil => simpa using ha
      | cons t3 ts3 => exact e3 (by simp)
    · rw [e1, hcc]
    · rw [e2, hb]
      simp only [List.length_cons]
      omega

/-- Witness for C4: boundary 5, streaming mode; a record dated 10
crosses (streaming looks for later records), sets `do_stop`, prints one
diagnostic and skips the bookkeeping; a record dated 3 is processed
normally. -/
theorem claim_C4_witness :
    (crossesLimit (freshWriter 10 (some 5) true false) (mkTweet 1 10) = true ↔
      (((freshWriter 10 (some 5) true false).stream = true ∧ (5 : Int) < 10) ∨
        ((freshWriter 10 (some 5) true false).stream = false ∧ (10 : Int) < 5))) ∧
    ((writerHandle (freshWriter 10 (some 5) true false) (mkTweet 1 10)).doStop = true ∧
      (writerHandle (freshWriter 10 (some 5) true false) (mkTweet 1 10)).diags =
        (freshWriter 10 (some 5) true false).diags + 1 ∧
      (writerHandle (freshWriter 10 (some 5) true false) (mkTweet 1 10)).startingup =
        (freshWriter 10 (some 5) true false).startingup ∧
      (writerHandle (freshWriter 10 (some 5) true false) (mkTweet 1 10)).counter =
        (freshWriter 10 (some 5) true false).counter) ∧
    ((writerHandle (freshWriter 10 (some 5) true false) (mkTweet 1 3)).doStop =
        (freshWriter 10 (some 5) true false).doStop ∧
      (writerHandle (freshWriter 10 (some 5) true false) (mkTweet 1 3)).diags =
        (freshWriter 10 (some 5) true false).diags ∧
      (writerHandle (freshWriter 10 (some 5) true false) (mkTweet 1 3)).startingup = false) ∧
    (([mkTweet 1 10, mkTweet 2 11].foldl writerHandle
        (freshWriter 10 (some 5) true false)).doStop = true ∧
      ([mkTweet 1 10, mkTweet 2 11].foldl writerHandle
        (freshWriter 10 (some 5) true false)).startingup =
        (freshWriter 10 (some 5) true false).startingup ∧
      ([mkTweet 1 10, mkTweet 2 11].foldl writerHandle
        (freshWriter 10 (some 5) true false)).diags =
        (freshWriter 10 (some 5) true false).diags + [mkTweet 1 10, mkTweet 2 11].length) := by
  refine ⟨?_, ?_, ?_, ?_⟩
  · exact claim_C4.1 (freshWriter 10 (some 5) true false) (mkTweet 1 10) 5 rfl
  · exact claim_C4.2.1 (freshWriter 10 (some 5) true false) (mkTweet 1 10) (by decide)
  · exact claim_C4.2.2.1 (freshWriter 10 (some 5) true false) (mkTweet 1 3) (by decide) (by decide)
  · exact claim_C4.2.2.2 (freshWriter 10 (some 5) true false) (mkTweet 1 10) [mkTweet 2 11]
      (by decide) (by decide)

/-- Counterexample to C6 as stated: a non-repeat `TweetWriter` that has
just crossed its date boundary (`do_stop = true`) still answers `true`
from `do_continue`, because the non-repeat branch delegates to the
default count predicate and ignores `do_stop`; the claim asserts that
`do_continue()` returns false immediately once `do_stop` is set. -/
theorem claim_C6_counterexample :
    (streamRun [mkTweet 1 10] (freshWriter 10 (some 5) true false) true).1.doStop = true ∧
    (streamRun [mkTweet 1 10] (freshWriter 10 (some 5) true false) true).2.1 = true := by
  decide

/-- Claim C6 (amended): once `do_stop` is true it stays true under
further `handle` calls and is never cleared by `do_continue`; under
repeat mode `do_continue` then answers false at once and performs no
rotation (the handler is returned unchanged — the `do_stop` check
precedes the rotation check); under non-repeat mode `do_continue`
delegates to the default count predicate and ignores `do_stop`. -/
theorem claim_C6_amended :
    (∀ (h : Handler) (t : Tweet), h.doStop = true → (writerHandle h t).doStop = true) ∧
    (∀ (h : Handler), (doContinue h).1.doStop = h.doStop) ∧
    (∀ (h : Handler), h.kind = .writer → h.rpt = true → h.doStop = true →
      doContinue h = (h, false)) ∧
    (∀ (h : Handler), h.kind = .writer → h.rpt = false →
      doContinue h = (h, defaultDoContinue h)) := by
  refine ⟨?_, ?_, ?_, ?_⟩
  · exact writerHandle_doStop_mono
  · exact doContinue_doStop
  · exact doContinue_writer_stop
  · exact doContinue_of_rpt_false

/-- Witness for C6 (amended), at a repeat-mode writer with `do_stop`
set: `handle` keeps `do_stop`, and `do_continue` answers false without
rotating. -/
theorem claim_C6_witness :
    (writerHandle { freshWriter 10 none true true with doStop := true }
        (mkTweet 1 0)).doStop = true ∧
    doContinue { freshWriter 10 none true true with doStop := true } =
      ({ freshWriter 10 none true true with doStop := true }, false) ∧
    doContinue (freshWriter 10 none true false) =
      (freshWriter 10 none true false, defaultDoContinue (freshWriter 10 none true false)) := by
  refine ⟨?_, ?_, ?_⟩
  · exact claim_C6_amended.1 _ (mkTweet 1 0) rfl
  · exact claim_C6_amended.2.2.1 _ rfl rfl rfl
  · exact claim_C6_amended.2.2.2 _ rfl rfl

/-- Claim C8 (confirmed): the streaming `filter` call raises the
invalid-argument error exactly when both `track` and `follow` are
empty, before any network call is made (zero network calls); with at
least one of them non-empty the network call proceeds and no such error
is raised. -/
theorem claim_C8 (track follow : String) :
    (track = "" ∧ follow = "" → filterCall true track follow = (.valueError, 0)) ∧
    (¬(track = "" ∧ follow = "") →
      (filterCall true track follow).1 = .connected ∧
      (filterCall true track follow).1 ≠ .valueError) := by
  constructor
  · rintro ⟨h1, h2⟩
    simp [filterCall, h1, h2]
  · intro hne
    constructor <;> simp [filterCall, hne]

/-- Witness for C8: empty `track` and `follow` raise with zero network
calls; a non-empty `track` connects. -/
theorem claim_C8_witness :
    filterCall true "" "" = (.valueError, 0) ∧
    (filterCall true "nltk" "").1 = .connected := by
  constructor
  · exact (claim_C8 "" "").1 ⟨rfl, rfl⟩
  · exact ((claim_C8 "nltk" "").2 (by simp)).1


lemma getLastD_mem : ∀ (l : List Tweet) (dflt : Tweet), l ≠ [] → l.getLastD dflt ∈ l := by
  intro l
  induction l with
  | nil => intro dflt hne; exact absurd rfl hne
  | cons a l ih =>
    intro dflt _
    rw [List.getLastD_cons]
    cases l with
    | nil => simp
    | cons b l2 => exact List.mem_cons_of_mem a (ih a (by simp))

/-- Counterexample to C2 as stated.  On the spec's own scenario (initial
page with ids 105..101) the cursor 100 is computed into the local
variable only: the handler's `max_id` stays `None`, although the claim
says every successful non-empty page stores the new cursor on the
handler.  Moreover the code derives the cursor from the *last* id of
the page, not its minimum: for the unsorted page [5, 9] it produces
8, not `min - 1 = 4`. -/
theorem claim_C2_counterexample :
    (searchRun 5 0 none
        [.page [mkTweet 105 0, mkTweet 104 0, mkTweet 103 0, mkTweet 102 0, mkTweet 101 0]]
        (genSt (freshWriter 5 none false false))).1.h.maxId = none ∧
    (searchRun 5 0 none
        [.page [mkTweet 105 0, mkTweet 104 0, mkTweet 103 0, mkTweet 102 0, mkTweet 101 0]]
        (genSt (freshWriter 5 none false false))).1.h.maxId ≠ some 100 ∧
    pageCursor [mkTweet 5 0, mkTweet 9 0] ≠ (5 : Int) - 1 := by
  decide

/-- Claim C2 (amended): the new cursor is `(last id in page) - 1`, which
equals `(min id in page) - 1` whenever the page's last id is minimal
(descending pages), and lies strictly below every id of the page; it is
strictly less than the previous cursor provided all page ids are at most
that cursor; every successful non-empty *pagination* page stores the new
cursor on the handler, while the initial page keeps it local only; a
fresh handler's cursor is `None`. -/
theorem claim_C2_amended :
    (∀ (t : Tweet) (ids : List Tweet),
      (∀ r ∈ t :: ids, ((t :: ids).getLastD default).id ≤ r.id) →
      pageCursor (t :: ids) = ((t :: ids).getLastD default).id - 1 ∧
      ((t :: ids).getLastD default) ∈ t :: ids ∧
      ∀ r ∈ t :: ids, pageCursor (t :: ids) < r.id) ∧
    (∀ (t : Tweet) (ids : List Tweet) (m : Int),
      (∀ r ∈ t :: ids, r.id ≤ m) → pageCursor (t :: ids) < m) ∧
    (∀ (t : Tweet) (ids : List Tweet) (st : GenSt),
      (afterFetch (t :: ids) st).1.h.maxId = some (pageCursor (t :: ids))) ∧
    (∀ (qlimit ra : Nat) (t : Tweet) (ids : List Tweet) (st : GenSt),
      (initRun qlimit ra [.page (t :: ids)] st).1.h.maxId = st.h.maxId) ∧
    (∀ (limit : Nat) (dl : Option Int) (strm rpt : Bool),
      (freshWriter limit dl strm rpt).maxId = none) := by
  refine ⟨?_, ?_, ?_, ?_, ?_⟩
  · intro t ids hmin
    refine ⟨rfl, getLastD_mem (t :: ids) default (by simp), ?_⟩
    intro r hr
    have := hmin r hr
    unfold pageCursor
    omega
  · intro t ids m hle
    have hmem := getLastD_mem (t :: ids) default (by simp)
    have := hle _ hmem
    unfold pageCursor
    omega
  · intro t ids st
    exact afterFetch_maxId (t :: ids) st (by simp)
  · intro qlimit ra t ids st
    exact initRun_maxId_single_page qlimit ra t ids st
  · intro limit dl strm rpt
    rfl

/-- Witness for C2 (amended), on the descending page [9, 5] with
previous cursor 50, and on a concrete pagination step. -/
theorem claim_C2_witness :
    (pageCursor [mkTweet 9 0, mkTweet 5 0] =
        (([mkTweet 9 0, mkTweet 5 0].getLastD default).id - 1) ∧
      ([mkTweet 9 0, mkTweet 5 0].getLastD default) ∈ [mkTweet 9 0, mkTweet 5 0] ∧
      ∀ r ∈ [mkTweet 9 0, mkTweet 5 0], pageCursor [mkTweet 9 0, mkTweet 5 0] < r.id) ∧
    pageCursor [mkTweet 9 0, mkTweet 5 0] < 50 ∧
    (afterFetch [mkTweet 9 0, mkTweet 5 0]
        (genSt (freshWriter 10 none false false))).1.h.maxId =
      some (pageCursor [mkTweet 9 0, mkTweet 5 0]) := by
  refine ⟨?_, ?_, ?_⟩
  · exact claim_C2_amended.1 (mkTweet 9 0) [mkTweet 5 0] (by decide)
  · exact claim_C2_amended.2.1 (mkTweet 9 0) [mkTweet 5 0] 50 (by decide)
  · exact claim_C2_amended.2.2.1 (mkTweet 9 0) [mkTweet 5 0] (genSt (freshWriter 10 none false false))

/-- Counterexample to C3 as stated.  A repeat-mode `TweetWriter` session
whose first generator run stored cursor 103 on the handler: the
re-invocation is *not* cursor-less — it enters the pagination loop
directly, so a transport response makes it abort with the re-raised
`TwythonError` (`raisedTransport`, with the transport error counted),
whereas a genuine cursor-less call on the same script would fail in the
unguarded initial request (`raisedInit`). -/
theorem claim_C3_counterexample :
    (dispatchLoop 2 [[.page [mkTweet 105 0], .page [mkTweet 104 0]], [.transport]]
        (genSt (freshWriter 10 none false true))).2.1 =
      DispOutcome.aborted .raisedTransport ∧
    (searchRun 2 0 none [.transport] (genSt (freshWriter 10 none false true))).2 =
      Outcome.raisedInit := by
  decide

/-- Claim C3 (amended): the dispatch loop re-invokes the generator when
repeat and continuation hold, but for a `TweetWriter` handler the new
call passes the handler's stored `max_id` (resuming from the previous
cursor); only a non-`TweetWriter` handler gets a cursor-less call; and
`on_finish` is invoked by the loop exactly once, at its normal stop
(zero times when the generator's exception aborts the loop). -/
theorem claim_C3_amended :
    (∀ (qlimit : Nat) (rest : List (List ApiResult)) (st : GenSt) (m : Int),
      st.h.kind = .writer → st.h.maxId = some m → m ≠ 0 → 0 < qlimit →
      dispatchLoop qlimit ([.transport] :: rest) st =
        ({ st with terrs := st.terrs + 1 }, .aborted .raisedTransport, 0)) ∧
    (∀ (qlimit : Nat) (rest : List (List ApiResult)) (st : GenSt),
      st.h.kind ≠ .writer →
      dispatchLoop qlimit ([.transport] :: rest) st = (st, .aborted .raisedInit, 0)) ∧
    (∀ (qlimit : Nat) (scripts : List (List ApiResult)) (st : GenSt),
      (dispatchLoop qlimit scripts st).2.2 =
        if (dispatchLoop qlimit scripts st).2.1 = .normal then 1 else 0) := by
  refine ⟨?_, ?_, dispatchLoop_fins_eq⟩
  · intro qlimit rest st m hk hm hm0 hq
    have hsearch : searchRun qlimit 0 (if st.h.kind = HKind.writer then st.h.maxId else none)
        [.transport] st = ({ st with terrs := st.terrs + 1 }, .raisedTransport) := by
      rw [if_pos hk, hm]
      simp only [searchRun]
      rw [if_neg hm0]
      simp only [pagLoop]
      rw [if_neg (by omega)]
      rfl
    simp only [dispatchLoop]
    rw [hsearch]
  · intro qlimit rest st hk
    have hsearch : searchRun qlimit 0 (if st.h.kind = HKind.writer then st.h.maxId else none)
        [.transport] st = (st, .raisedInit) := by
      rw [if_neg hk]
      rfl
    simp only [dispatchLoop]
    rw [hsearch]

/-- Witness for C3 (amended): a writer holding cursor 7 resumes and hits
the pagination loop (transport error re-raised); a viewer gets the
cursor-less call (initial request raises). -/
theorem claim_C3_witness :
    dispatchLoop 3 [[.transport]]
        { genSt (freshWriter 10 none false true) with
            h := { freshWriter 10 none false true with maxId := some 7 } } =
      ({ { genSt (freshWriter 10 none false true) with
            h := { freshWriter 10 none false true with maxId := some 7 } } with
          terrs := { genSt (freshWriter 10 none false true) with
            h := { freshWriter 10 none false true with maxId := some 7 } }.terrs + 1 },
        .aborted .raisedTransport, 0) ∧
    dispatchLoop 3 [[.transport]] (genSt (freshViewer 4)) =
      (genSt (freshViewer 4), .aborted .raisedInit, 0) := by
  constructor
  · exact claim_C3_amended.1 3 []
      { genSt (freshWriter 10 none false true) with
          h := { freshWriter 10 none false true with maxId := some 7 } } 7
      rfl rfl (by decide) (by decide)
  · exact claim_C3_amended.2.1 3 [] (genSt (freshViewer 4)) (by decide)


/-- Claim C5 (confirmed): a repeat-mode writer without a date boundary,
fed any sequence of records: the continuation never fails (no teardown),
a file is closed after exactly every `limit` records, the counter is
reset at rotation (final counter is the remainder), and `startingup` is
marked exactly at rotation points. -/
theorem claim_C5 (limit : Nat) (strm : Bool) (rs : List Tweet)
    (hpos : 0 < limit) (htext : ∀ t ∈ rs, t.hasText = true) :
    (streamRun rs (freshWriter limit none strm true) true).2.1 = true ∧
    (streamRun rs (freshWriter limit none strm true) true).2.2 = 0 ∧
    (streamRun rs (freshWriter limit none strm true) true).1.closedFiles.length
      = rs.length / limit ∧
    (∀ f ∈ (streamRun rs (freshWriter limit none strm true) true).1.closedFiles,
      f.length = limit) ∧
    (streamRun rs (freshWriter limit none strm true) true).1.counter = rs.length % limit ∧
    (streamRun rs (freshWriter limit none strm true) true).1.startingup
      = decide ((streamRun rs (freshWriter limit none strm true) true).1.counter = 0) := by
  have hw : WInv limit (freshWriter limit none strm true) := by
    refine ⟨rfl, rfl, rfl, rfl, rfl, hpos, ?_, ?_, ?_, ?_⟩ <;> simp [freshWriter]
  obtain ⟨e1, e2, e3, e4⟩ :=
    streamRun_writer_inv rs (freshWriter limit none strm true) limit hw htext
  obtain ⟨hk2, hr2, hdl2, hds2, hlim2, hclt2, hsu2, hoo2, hcf2, hclosed2⟩ := e3
  have e4s : (streamRun rs (freshWriter limit none strm true) true).1.closedFiles.length * limit
      + (streamRun rs (freshWriter limit none strm true) true).1.counter = rs.length := by
    simpa [freshWriter] using e4
  refine ⟨e1, e2, ?_, hclosed2, ?_, hsu2⟩
  · have hdiv : rs.length / limit
        = (streamRun rs (freshWriter limit none strm true) true).1.closedFiles.length := by
      conv_lhs => rw [← e4s]
      rw [Nat.add_comm, Nat.add_mul_div_right _ _ hpos, Nat.div_eq_of_lt hclt2,
        Nat.zero_add]
    exact hdiv.symm
  · have hmod : rs.length % limit
        = (streamRun rs (freshWriter limit none strm true) true).1.counter := by
      conv_lhs => rw [← e4s]
      rw [Nat.add_comm, Nat.add_mul_mod_self_right, Nat.mod_eq_of_lt hclt2]
    exact hmod.symm

/-- Witness for C5: limit 2 and five records give two closed files of
two records each, a final counter of 1, and a never-failing
continuation. -/
theorem claim_C5_witness :
    (streamRun [mkTweet 1 0, mkTweet 2 0, mkTweet 3 0, mkTweet 4 0, mkTweet 5 0]
        (freshWriter 2 none true true) true).2.1 = true ∧
    (streamRun [mkTweet 1 0, mkTweet 2 0, mkTweet 3 0, mkTweet 4 0, mkTweet 5 0]
        (freshWriter 2 none true true) true).2.2 = 0 ∧
    (streamRun [mkTweet 1 0, mkTweet 2 0, mkTweet 3 0, mkTweet 4 0, mkTweet 5 0]
        (freshWriter 2 none true true) true).1.closedFiles.length = 2 ∧
    (∀ f ∈ (streamRun [mkTweet 1 0, mkTweet 2 0, mkTweet 3 0, mkTweet 4 0, mkTweet 5 0]
        (freshWriter 2 none true true) true).1.closedFiles, f.length = 2) ∧
    (streamRun [mkTweet 1 0, mkTweet 2 0, mkTweet 3 0, mkTweet 4 0, mkTweet 5 0]
        (freshWriter 2 none true true) true).1.counter = 1 ∧
    (streamRun [mkTweet 1 0, mkTweet 2 0, mkTweet 3 0, mkTweet 4 0, mkTweet 5 0]
        (freshWriter 2 none true true) true).1.startingup
      = decide ((streamRun [mkTweet 1 0, mkTweet 2 0, mkTweet 3 0, mkTweet 4 0, mkTweet 5 0]
        (freshWriter 2 none true true) true).1.counter = 0) :=
  claim_C5 2 true [mkTweet 1 0, mkTweet 2 0, mkTweet 3 0, mkTweet 4 0, mkTweet 5 0]
    (by omega) (by decide)

/-- Claim C7 (confirmed): once the continuation flag is false, the next
inbound item makes the streaming engine disconnect and call `on_finish`,
and no later item is ever handled; the engine never calls `on_finish`
more than once per session, and whenever the flag drops during a session
and at least one more item arrives, `on_finish` is called exactly once. -/
theorem claim_C7 :
    (∀ (h : Handler) (t : Tweet) (rest : List Tweet),
      streamRun (t :: rest) h false = (onFinishH h, false, 1)) ∧
    (∀ (rs : List Tweet) (h : Handler) (flag : Bool), (streamRun rs h flag).2.2 ≤ 1) ∧
    (∀ (rs : List Tweet) (h h1 : Handler) (t : Tweet) (rs2 : List Tweet),
      streamRun rs h true = (h1, false, 0) →
      streamRun (rs ++ t :: rs2) h true = (onFinishH h1, false, 1)) := by
  refine ⟨?_, streamRun_fins_le_one, ?_⟩
  · intro h t rest
    rfl
  · intro rs h h1 t rs2 hrun
    rw [streamRun_append, hrun]
    simp only [Prod.snd, Prod.fst, if_pos]
    rfl

/-- Witness for C7: a viewer with limit 1 drops the flag after its first
record; the very next record tears the session down with exactly one
`on_finish`. -/
theorem claim_C7_witness :
    streamRun ([mkTweet 1 0] ++ [mkTweet 2 0]) (freshViewer 1) true =
      (onFinishH (streamRun [mkTweet 1 0] (freshViewer 1) true).1, false, 1) := by
  exact claim_C7.2.2 [mkTweet 1 0] (freshViewer 1)
    (streamRun [mkTweet 1 0] (freshViewer 1) true).1 (mkTweet 2 0) [] (by decide)

/-- Claim C9 (confirmed): with a `TweetViewer` registered, each record
bumps the counter twice — once by the engine (`on_success` before
`handle`, or the search generator after each yield) and once inside
`TweetViewer.handle` — so after `n` records the counter is `2 n`, and
the default continuation predicate stops the stream after
`(limit + 1) / 2` records, roughly half of `limit`; `TweetWriter.handle`
never touches the counter. -/
theorem claim_C9 :
    (∀ (h : Handler) (t : Tweet), h.kind = .viewer → t.hasText = true →
      (streamRun [t] h true).1.counter = h.counter + 2) ∧
    (∀ (l : List Tweet) (st : GenSt), st.h.kind = .viewer →
      st.h.counter + 2 * l.length ≤ st.h.limit →
      (yieldPage l st).1.h.counter = st.h.counter + 2 * l.length ∧
      (yieldPage l st).1.yields = st.yields ++ l) ∧
    (∀ (h : Handler) (t : Tweet), (writerHandle h t).counter = h.counter) ∧
    (∀ (limit : Nat) (rs : List Tweet), 0 < limit → (∀ t ∈ rs, t.hasText = true) →
      (limit + 1) / 2 ≤ rs.length →
      (streamRun rs (freshViewer limit) true).1.counter = 2 * ((limit + 1) / 2) ∧
      (streamRun rs (freshViewer limit) true).2.1 = false) := by
  refine ⟨?_, ?_, writerHandle_counter, ?_⟩
  · intro h t hk ht
    rw [streamRun_cons_true, if_pos ht]
    rw [handleTweet_viewer _ _ (by simpa using hk)]
    rw [doContinue_of_not_writer _ (by simp [hk])]
    simp [streamRun]
  · intro l st hk hle
    rw [yieldPage_viewer_run l st hk hle]
    exact ⟨rfl, rfl⟩
  · intro limit rs hpos htext hlen
    have hrec := streamRun_viewer_count rs 0 (freshViewer limit) rfl
      (by simp [freshViewer]) htext (by simp [freshViewer]; omega)
    have hlimv : (freshViewer limit).limit = limit := rfl
    rw [hlimv] at hrec
    constructor
    · rw [hrec.1]
      omega
    · rw [hrec.2]
      rw [decide_eq_false_iff_not]
      omega

/-- Witness for C9: a viewer handler at counter 4 gains 2 on one
streamed record; a page of two records through the yield loop adds 4; a
writer leaves the counter alone; with limit 5 the viewer session stops
after 3 records at counter 6. -/
theorem claim_C9_witness :
    (streamRun [mkTweet 1 0] { freshViewer 20 with counter := 4 } true).1.counter =
      ({ freshViewer 20 with counter := 4 } : Handler).counter + 2 ∧
    ((yieldPage [mkTweet 9 0, mkTweet 8 0] (genSt (freshViewer 20))).1.h.counter =
      (genSt (freshViewer 20)).h.counter + 2 * [mkTweet 9 0, mkTweet 8 0].length ∧
     (yieldPage [mkTweet 9 0, mkTweet 8 0] (genSt (freshViewer 20))).1.yields =
      (genSt (freshViewer 20)).yields ++ [mkTweet 9 0, mkTweet 8 0]) ∧
    (writerHandle (freshWriter 10 none true false) (mkTweet 1 0)).counter =
      (freshWriter 10 none true false).counter ∧
    ((streamRun [mkTweet 1 0, mkTweet 2 0, mkTweet 3 0] (freshViewer 5) true).1.counter =
      2 * ((5 + 1) / 2) ∧
     (streamRun [mkTweet 1 0, mkTweet 2 0, mkTweet 3 0] (freshViewer 5) true).2.1 = false) := by
  refine ⟨?_, ?_, ?_, ?_⟩
  · exact claim_C9.1 { freshViewer 20 with counter := 4 } (mkTweet 1 0) rfl rfl
  · exact claim_C9.2.1 [mkTweet 9 0, mkTweet 8 0] (genSt (freshViewer 20)) rfl (by decide)
  · exact claim_C9.2.2.1 (freshWriter 10 none true false) (mkTweet 1 0)
  · exact claim_C9.2.2.2 5 [mkTweet 1 0, mkTweet 2 0, mkTweet 3 0] (by omega) (by decide)
      (by decide)


/-- Processing a full page through `afterFetch` with a basic handler of
sufficient capacity yields the whole page. -/
lemma afterFetch_basic_run (t : Tweet) (ids : List Tweet) (st : GenSt)
    (hk : st.h.kind = .basic) (hle : st.h.counter + (t :: ids).length ≤ st.h.limit) :
    (afterFetch (t :: ids) st).1.yields = st.yields ++ (t :: ids) := by
  rw [afterFetch_cons]
  dsimp only
  rw [yieldPage_basic_run (t :: ids) _ (by simpa using hk) (by simpa using hle)]

/-- The fall-through after a non-fatal transport error: the stale page
bound to `results` is processed again, so its records are yielded a
second time before anything else happens. -/
lemma pagLoop_stale_dup (qlimit ra : Nat) (rest : List ApiResult) (cfq retries : Nat)
    (t : Tweet) (ids : List Tweet) (m : Int) (st : GenSt)
    (hk : st.h.kind = .basic) (hle : st.h.counter + (t :: ids).length ≤ st.h.limit)
    (hcfq : cfq < qlimit) (hra : ra ≠ retries) :
    ∃ tail, (pagLoop qlimit ra (.transport :: rest) cfq retries (some (t :: ids)) m st).1.yields
      = st.yields ++ (t :: ids) ++ tail := by
  simp only [pagLoop]
  rw [if_neg (by omega), if_neg hra]
  rcases haf : afterFetch (t :: ids) { st with terrs := st.terrs + 1 } with ⟨st2, opt⟩
  have hy := afterFetch_basic_run t ids { st with terrs := st.terrs + 1 }
    (by simpa using hk) (by simpa using hle)
  rw [haf] at hy
  simp only at hy
  cases opt with
  | none =>
    refine ⟨[], ?_⟩
    dsimp only
    simp [hy]
  | some m2 =>
    dsimp only
    rcases pagLoop_prefix qlimit ra rest (cfq + (t :: ids).length) (retries + 1)
      (some (t :: ids)) m2 st2 with ⟨tail, htail⟩
    refine ⟨tail, ?_⟩
    rw [← htail, hy]

/-- Claim C10 (confirmed): after a non-rate-limit transport error with
retries remaining, `search_tweets` does not re-issue the request before
processing results — control falls through to the result-processing
block, so the previously fetched page bound to `results` is yielded
again (duplicates); and when the error hits the very first pagination
request of a call that was given a cursor (`max_id` supplied, so the
initial block was skipped), the local `results` variable is unbound and
the generator dies with a `NameError` instead of the transport error. -/
theorem claim_C10 :
    (∀ (qlimit ra : Nat) (m : Int) (rest : List ApiResult) (st : GenSt),
      0 < qlimit → m ≠ 0 → ra ≠ 0 →
      searchRun qlimit ra (some m) (.transport :: rest) st =
        ({ st with terrs := st.terrs + 1 }, .nameError)) ∧
    (∀ (qlimit ra : Nat) (rest : List ApiResult) (cfq retries : Nat)
      (t : Tweet) (ids : List Tweet) (m : Int) (st : GenSt),
      st.h.kind = .basic → st.h.counter + (t :: ids).length ≤ st.h.limit →
      cfq < qlimit → ra ≠ retries →
      ∃ tail,
        (pagLoop qlimit ra (.transport :: rest) cfq retries (some (t :: ids)) m st).1.yields
          = st.yields ++ (t :: ids) ++ tail) := by
  constructor
  · intro qlimit ra m rest st hq hm0 hra
    simp only [searchRun]
    rw [if_neg hm0]
    simp only [pagLoop]
    rw [if_neg (by omega), if_neg hra]
  · intro qlimit ra rest cfq retries t ids m st hk hle hcfq hra
    exact pagLoop_stale_dup qlimit ra rest cfq retries t ids m st hk hle hcfq hra

/-- Witness for C10: a call handed cursor 50 dies with the `NameError`
on an immediate transport error; with a stale page [9, 8] bound, a
non-fatal transport error re-yields 9 and 8. -/
theorem claim_C10_witness :
    searchRun 5 1 (some 50) [.transport] (genSt (freshWriter 10 none false false)) =
      ({ genSt (freshWriter 10 none false false) with
          terrs := (genSt (freshWriter 10 none false false)).terrs + 1 }, .nameError) ∧
    (∃ tail,
      (pagLoop 5 1 [ApiResult.transport] 2 0 (some [mkTweet 9 0, mkTweet 8 0]) 7
          { genSt { freshWriter 20 none false false with kind := HKind.basic } with
              yields := [mkTweet 9 0, mkTweet 8 0] }).1.yields
        = [mkTweet 9 0, mkTweet 8 0] ++ [mkTweet 9 0, mkTweet 8 0] ++ tail) := by
  constructor
  · exact claim_C10.1 5 1 50 [] (genSt (freshWriter 10 none false false))
      (by omega) (by decide) (by omega)
  · obtain ⟨tail, htail⟩ := claim_C10.2 5 1 [] 2 0 (mkTweet 9 0) [mkTweet 8 0] 7
      { genSt { freshWriter 20 none false false with kind := HKind.basic } with
          yields := [mkTweet 9 0, mkTweet 8 0] }
      (by decide) (by decide) (by omega) (by omega)
    exact ⟨tail, by simpa using htail⟩

end TwitterClient
